import Mathlib

/-!
Verification of the scheduled aggregation engine of the daily-stock-aggregator
repository: the per-instrument update/merge logic, the rolling history buffer
of the daily variant (`Daily_Aggregator.py`), the per-symbol update loop of
the generic scraper (`Scraper.py`), the market-hours gating of `_pull_data`,
and the next-trigger computation of both schedulers.

Conventions of the embedding:
* Python `datetime.date` components become a `Date` structure of three `Nat`s
  (`Daily_Aggregator` only ever stores and compares `(year, month, day)`).
* Intraday timestamps (timezone-aware datetimes, compared with `<`) become
  `Nat` seconds on a common absolute axis.
* Price/volume rows (numpy float rows) become `List Int`; no claim depends on
  price arithmetic, only on which rows are kept, ordered and emitted.
* The yfinance provider call is an external collaborator: each call site takes
  the call's outcome as a parameter (`Except String _` where the call can
  raise, a plain list where the surrounding code already caught emptiness).
* Python exceptions become `Except String`; an uncaught exception is an
  `.error` result that propagates.
-/

/-- Calendar date as stored in `Daily_Aggregator.dates` (year, month, day). -/
structure Date where
  year : Nat
  month : Nat
  day : Nat
deriving DecidableEq, Repr

/-- Strict lexicographic order on dates: `a` is an earlier calendar day than
`b`.  This is what "timestamp greater" means at daily granularity. -/
def dateLtb (a b : Date) : Bool :=
  decide (a.year < b.year) ||
    (a.year == b.year &&
      (decide (a.month < b.month) ||
        (a.month == b.month && decide (a.day < b.day))))

/-- Non-strict lexicographic order on dates. -/
def dateLeb (a b : Date) : Bool :=
  dateLtb a b || a == b

/-- One daily record: one row of the parallel `dates`/`prices` arrays of
`Daily_Aggregator` (open, close, high, low, volume ride along as `prices`). -/
structure DRecord where
  date : Date
  prices : List Int
deriving DecidableEq, Repr

/-- `ROLLING_BUF_DAYS` of `Daily_Aggregator.py` (line 34). -/
def ROLLING_BUF_DAYS : Nat := 30

/-- A zero row, the content of the freshly allocated `np.zeros` buffers of
`Daily_Aggregator.__init__` before the first update. -/
def zeroDRecord : DRecord := ⟨⟨0, 0, 0⟩, [0, 0, 0, 0, 0]⟩

/-- Adjacent-pairs chain: `chainBy le l` holds when every consecutive pair of
`l` satisfies `le`.  With `le` a (transitive) order this is sortedness. -/
def chainBy (le : α → α → Bool) : List α → Bool
  | [] => true
  | [_] => true
  | a :: b :: t => le a b && chainBy le (b :: t)

/-- Dates of a daily buffer in non-decreasing chronological order. -/
def dateChain (l : List DRecord) : Bool :=
  chainBy (fun a b => dateLeb a.date b.date) l

/-- The steady-state buffer mutation of `Daily_Aggregator._update_ticker`
(lines 200-209): `np.roll(buf, -1, 0)` moves row 0 to the last slot and every
other row one slot toward index 0; the last slot is then overwritten with the
new record.  On a non-empty list this is exactly drop-head-append-tail. -/
def rollAppend (buf : List DRecord) (r : DRecord) : List DRecord :=
  buf.drop 1 ++ [r]

/-- Per-ticker state of the daily aggregator: `tickers[idx] is None` is the
uninitialized marker; `buf` is row `idx` of the parallel `prices`/`dates`
arrays, newest row last. -/
structure DailyTickerState where
  initialized : Bool
  buf : List DRecord
deriving DecidableEq, Repr

/-- State of one ticker before any update: ticker object not yet created,
buffer rows all zeros (`np.zeros`). -/
def initDailyState : DailyTickerState :=
  ⟨false, List.replicate ROLLING_BUF_DAYS zeroDRecord⟩

/-- Result of `Daily_Aggregator._update_ticker` for one ticker: the new state
and, when `updated` ended up true, the buffer contents handed to
`_publish` (the whole rolling buffer, not just the new row). -/
structure DailyUpdateResult where
  state : DailyTickerState
  published : Option (List DRecord)
deriving DecidableEq, Repr

/-- `Daily_Aggregator._update_ticker` (lines 155-215) with the provider's
fetched rows passed in.  First call: bootstrap from a `2 * ROLLING_BUF_DAYS`
day history, keeping the trailing `ROLLING_BUF_DAYS` rows; numpy raises a
broadcast error if fewer rows than the buffer length come back.  Later calls:
fetch one day, compare its `(year, month, day)` against the newest buffered
date componentwise, and roll the buffer only when some component differs;
`data.index[0]` on an empty frame raises.  There is no exception handler in
this method or its caller. -/
def dailyUpdateTicker (st : DailyTickerState) (fetch : List DRecord) :
    Except String DailyUpdateResult :=
  if st.initialized = false then
    if ROLLING_BUF_DAYS ≤ fetch.length then
      let buf := fetch.drop (fetch.length - ROLLING_BUF_DAYS)
      .ok ⟨⟨true, buf⟩, some buf⟩
    else
      .error "could not broadcast input array"
  else
    match fetch with
    | [] => .error "index 0 is out of bounds"
    | r :: _ =>
      let newest := st.buf.getLastD zeroDRecord
      if r.date.year = newest.date.year ∧ r.date.month = newest.date.month ∧
          r.date.day = newest.date.day then
        .ok ⟨st, none⟩
      else
        let buf2 := rollAppend st.buf r
        .ok ⟨⟨true, buf2⟩, some buf2⟩

/-- `Daily_Aggregator._publish` (lines 134-152): one `send_string` per call,
whose single message carries the symbol and the entire pickled batch. -/
def dailyPublish (symbol : String) (buf : List DRecord) :
    List (String × List DRecord) :=
  [(symbol, buf)]

/-- `Daily_Aggregator._loop_through_tickers` (lines 218-226): iterate the
tickers in order with no exception handler, so the first raised exception
(from the provider call or from the update body) propagates and ends the
cycle; tickers after it are not processed.  Each ticker's provider-call
outcome is passed in positionally. -/
def dailyLoopThroughTickers :
    List (DailyTickerState × Except String (List DRecord)) →
    Except String (List DailyUpdateResult)
  | [] => .ok []
  | (st, fetch) :: rest =>
    match fetch with
    | .error e => .error e
    | .ok data =>
      match dailyUpdateTicker st data with
      | .error e => .error e
      | .ok res =>
        match dailyLoopThroughTickers rest with
        | .error e => .error e
        | .ok tl => .ok (res :: tl)

/-- One intraday record of `Scraper.py`: a timezone-aware datetime collapsed
to seconds on one absolute axis (`d_dates` entry) plus its price row. -/
structure SRecord where
  ts : Nat
  prices : List Int
deriving DecidableEq, Repr

/-- Timestamps of a fetched intraday frame in non-decreasing order. -/
def tsChain (l : List SRecord) : Bool :=
  chainBy (fun a b => decide (a.ts ≤ b.ts)) l

/-- Index of the first entry satisfying `p`, as `np.argmax` computes it on
the boolean mask `prev_update < d_dates` once the all-`False` case has been
ruled out (`Scraper._update_tickers` lines 315-323). -/
def firstTrueIdx (p : α → Bool) : List α → Option Nat
  | [] => none
  | a :: t => if p a then some 0 else (firstTrueIdx p t).map (· + 1)

/-- The body of one iteration of `Scraper._update_tickers` (lines 267-326),
the contents of the per-ticker `try` block.  `strs` and `prevs` are the
parallel arrays selected at lines 252-263 (`..._ticker_strs` and
`..._prev_update`), `ii` the loop index, and `fetch` the outcome of this
iteration's `cur_ticker.history(...)` call.  Result: the `prev_updates`
array after the iteration, the `(symbol, record)` messages published, and
the log records emitted by the `except` clause (line 328) — an out-of-range
list index or a failed provider call is caught there and logged. -/
def updateOneTicker (strs : List String) (prevs : List (Option Nat)) (ii : Nat)
    (fetch : Except String (List SRecord)) :
    List (Option Nat) × List (String × SRecord) × List String :=
  match strs[ii]? with
  | none => (prevs, [], ["IndexError: list index out of range"])
  | some cur_str =>
    match prevs[ii]? with
    | none => (prevs, [], ["IndexError: list index out of range"])
    | some prev_update =>
      match fetch with
      | .error e => (prevs, [], [e])
      | .ok [] => (prevs, [], [])
      | .ok (r :: rs) =>
        let data := r :: rs
        let lastRec := rs.getLastD r
        match prev_update with
        | none =>
          (prevs.set ii (some lastRec.ts), [(cur_str, lastRec)], [])
        | some p =>
          match firstTrueIdx (fun x => decide (p < x.ts)) data with
          | none => (prevs, [], [])
          | some idx =>
            (prevs.set ii (some lastRec.ts),
             (data.drop idx).map (fun x => (cur_str, x)), [])

/-- The `for ii in range(n)` loop of `Scraper._update_tickers`, threading the
`prev_updates` array and accumulating published messages and log records.
The provider outcome of iteration `ii` is `fetches[ii]` (the call happens
inside the iteration; a missing entry stands for a raising call). -/
def updateTickersGo (strs : List String)
    (fetches : List (Except String (List SRecord))) :
    List Nat →
    List (Option Nat) × List (String × SRecord) × List String →
    List (Option Nat) × List (String × SRecord) × List String
  | [], acc => acc
  | ii :: rest, acc =>
    let step := updateOneTicker strs acc.1 ii
      (fetches.getD ii (.error "fetch missing"))
    updateTickersGo strs fetches rest
      (step.1, acc.2.1 ++ step.2.1, acc.2.2 ++ step.2.2)

/-- `Scraper._update_tickers` over the whole ticker list: `n` is the length
of the selected symbol array (`n_market_tickers` / `n_daily_tickers`, both
computed as the length of the corresponding `_strs` list). -/
def updateTickers (strs : List String) (prevs : List (Option Nat))
    (fetches : List (Except String (List SRecord))) :
    List (Option Nat) × List (String × SRecord) × List String :=
  updateTickersGo strs fetches (List.range strs.length) (prevs, [], [])

/-- `Scraper._publish` (lines 209-239): a single datetime sends one message;
an array sends one message per entry, in array order, each carrying the
ticker symbol. -/
inductive PubInput
  | single (r : SRecord)
  | batch (rs : List SRecord)

/-- Messages emitted by one `Scraper._publish` call. -/
def scraperPublish (symbol : String) : PubInput → List (String × SRecord)
  | .single r => [(symbol, r)]
  | .batch rs => rs.map (fun r => (symbol, r))

/-- The valid `timeframe` values of `Scraper.__init__` (line 143). -/
def valid_options : List String :=
  ["1m", "2m", "5m", "15m", "30m", "60m", "90m", "1d"]

/-- Lexicographic byte order on character lists, the order Python's
`sorted` applies to the ticker strings. -/
def charsLeb : List Char → List Char → Bool
  | [], _ => true
  | _ :: _, [] => false
  | x :: xs, y :: ys => if x = y then charsLeb xs ys else decide (x < y)

/-- Lexicographic order on strings. -/
def strLeb (a b : String) : Bool := charsLeb a.data b.data

/-- `Scraper.get_ticker_list` on an explicit list argument (lines 195-206):
duplicates removed via set semantics, result sorted.  (The file and internet
branches differ only in where the raw list comes from.) -/
def get_ticker_list (ticker_list : List String) : List String :=
  List.insertionSort (fun a b => strLeb a b = true) (ticker_list.eraseDups)

/-- The fields of `Scraper` relevant to the update loop and scheduling. -/
structure Scraper where
  market_ticker_strs : List String
  daily_ticker_strs : List String
  market_prev_update : List (Option Nat)
  daily_prev_update : List (Option Nat)
  timeframe : String
  have_done_mkt_close_pull : Bool
deriving DecidableEq, Repr

/-- `Scraper.__init__` (lines 116-158) with explicit ticker lists: loads and
allocates the parallel arrays, then validates the timeframe, raising
`ValueError` (so construction fails and `run` is never reached) on an
invalid value.  Line 135 allocates `daily_prev_update` with one slot per
entry of the MARKET list (`[None for x in self.market_ticker_strs]`). -/
def scraperInit (timeframe : String)
    (market_tickers daily_tickers : List String) : Except String Scraper :=
  let market_ticker_strs := get_ticker_list market_tickers
  let daily_ticker_strs := get_ticker_list daily_tickers
  if valid_options.contains timeframe then
    .ok { market_ticker_strs := market_ticker_strs,
          daily_ticker_strs := daily_ticker_strs,
          market_prev_update := market_ticker_strs.map (fun _ => none),
          daily_prev_update := market_ticker_strs.map (fun _ => none),
          timeframe := timeframe,
          have_done_mkt_close_pull := false }
  else
    .error "Invalid timeframe argument"

/-- `MARKET_OPEN_TIME` (09:30:00) as seconds since local midnight. -/
def marketOpenSecs : Nat := 9 * 3600 + 30 * 60

/-- `MARKET_CLOSE_TIME` (16:00:00) as seconds since local midnight. -/
def marketCloseSecs : Nat := 16 * 3600

/-- One wall-clock instant as `Scraper._pull_data` inspects it:
`datetime.weekday()` (0 = Monday .. 6 = Sunday) and the time of day in
seconds since midnight, US/Eastern. -/
structure PollInstant where
  weekday : Nat
  tod : Nat
deriving DecidableEq, Repr

/-- The market-open test of `Scraper._pull_data` (lines 342-343):
`MARKET_OPEN_TIME <= t <= MARKET_CLOSE_TIME and weekday < 5`. -/
def marketWindowOpen (t : PollInstant) : Bool :=
  decide (marketOpenSecs ≤ t.tod) && decide (t.tod ≤ marketCloseSecs) &&
    decide (t.weekday < 5)

/-- The market-ticker gating of one `Scraper._pull_data` call
(lines 336-354): in the open window, pull and clear the one-shot flag;
otherwise pull once if the flag is clear and set it; otherwise skip.
Returns (market tickers pulled this call?, flag afterwards).  (The daily
tickers are pulled unconditionally afterwards and are not part of this
gate.) -/
def pullDataMarketGate (t : PollInstant) (haveDonePull : Bool) :
    Bool × Bool :=
  if marketWindowOpen t then (true, false)
  else if haveDonePull = false then (true, true)
  else (false, haveDonePull)

/-- A run of `_pull_data` calls at the given instants, threading
`have_done_mkt_close_pull` (initialized `False` at `__init__` line 149):
the per-call pull decisions and the final flag. -/
def pullSeq (flag : Bool) : List PollInstant → List Bool × Bool
  | [] => ([], flag)
  | t :: rest =>
    let step := pullDataMarketGate t flag
    let tail := pullSeq step.2 rest
    (step.1 :: tail.1, tail.2)

/-- The eight validated timeframes, as `Scraper.run` dispatches on them. -/
inductive Timeframe
  | m1
  | m2
  | m5
  | m15
  | m30
  | m60
  | m90
  | d1
deriving DecidableEq, Repr

/-- The cadence increment of `Scraper.run` in seconds:
`timedelta(minutes=int(timeframe[:-1]))` for the minute frames,
`timedelta(days=1)` for `1d` (lines 392-402, 426-429). -/
def incrementSecs : Timeframe → Nat
  | .m1 => 60
  | .m2 => 120
  | .m5 => 300
  | .m15 => 900
  | .m30 => 1800
  | .m60 => 3600
  | .m90 => 5400
  | .d1 => 86400

/-- The calendar anchor of `Scraper.run` (lines 372-384), in seconds since
midnight of the current day: `16:01:00` for the daily cadence, market open
(`09:30:00`) plus the cadence's minutes otherwise, plus 30 seconds in both
cases to ensure data availability. -/
def anchorSecs : Timeframe → Nat
  | .d1 => 16 * 3600 + 60 + 30
  | tf => 9 * 3600 + 30 * 60 + incrementSecs tf + 30

/-- The catch-up loop of `Scraper.run` (lines 391-403): while the candidate
trigger is not in the future, advance it by one whole cadence increment.
Times are absolute seconds (midnight of the current day = 0). -/
def catchUp (tf : Timeframe) (now : Nat) (next : Nat) : Nat :=
  if next ≤ now then catchUp tf now (next + incrementSecs tf) else next
termination_by now + 1 - next
decreasing_by
  have h1 : 1 ≤ incrementSecs tf := by cases tf <;> decide
  omega

/-- The first trigger time `Scraper.run` arrives at before entering its main
loop: the calendar anchor for the current day, caught up past `now`. -/
def scraperFirstTrigger (tf : Timeframe) (now : Nat) : Nat :=
  catchUp tf now (anchorSecs tf)

/-- The wake time of one `Daily_Aggregator.run` iteration (lines 237-252):
`cur_time` plus `secs_to_next_close`, where the target close is always
**tomorrow's** 16:00 (`mkt_close_today + timedelta(days=1)`) plus the 180 s
grace, whatever `now` is — today's close is never the target. -/
def dailyAggFirstTrigger (_now : Nat) : Nat :=
  86400 + 16 * 3600 + 180

/-! ### Concrete fixtures used by counterexamples and witnesses -/

/-- A bootstrapped buffer: the 30 trading days 2024-01-01 .. 2024-01-30. -/
def demoBuf : List DRecord :=
  (List.range ROLLING_BUF_DAYS).map (fun i => ⟨⟨2024, 1, i + 1⟩, []⟩)

/-- 31 records whose last one is dated before its predecessor
(2024-03-01 .. 2024-03-30 followed by 2024-03-05). -/
def demoStaleInputs : List DRecord :=
  (List.range 30).map (fun i => ⟨⟨2024, 3, i + 1⟩, []⟩) ++ [⟨⟨2024, 3, 5⟩, []⟩]

/-- 31 records in chronological order (2024-02-01 .. 2024-02-31 as plain
triples). -/
def demoSortedInputs : List DRecord :=
  (List.range 31).map (fun i => ⟨⟨2024, 2, i + 1⟩, []⟩)

/-- A 40-day bootstrap fetch, scenario A of the spec (ascending dates). -/
def fetch40 : List DRecord :=
  (List.range 40).map (fun i => ⟨⟨2024, 1, i + 1⟩, [1, 2, 3, 4, 5]⟩)

/-- The `Scraper` value built from one market ticker and two daily tickers;
its `daily_prev_update` has one slot although there are two daily tickers. -/
def demoScraper : Scraper :=
  ⟨["AAPL"], ["BTC-USD", "ETH-USD"], [none], [none], "1d", false⟩

example : rollAppend [⟨⟨1,1,1⟩,[]⟩, ⟨⟨1,1,2⟩,[]⟩] ⟨⟨1,1,3⟩,[]⟩ =
    [⟨⟨1,1,2⟩,[]⟩, ⟨⟨1,1,3⟩,[]⟩] := by decide

example : dateChain [⟨⟨2024,1,1⟩,[]⟩, ⟨⟨2024,1,2⟩,[]⟩] = true := by decide

example : (dailyUpdateTicker initDailyState
    (List.replicate 40 zeroDRecord)).isOk = true := by decide

example : get_ticker_list ["b", "a", "b"] = ["a", "b"] := by decide

example : (scraperInit "1d" [] []).isOk = true := by decide

example : (scraperInit "3m" ["A"] ["B"]).isOk = false := by decide

example : updateOneTicker ["AAPL"] [some 5] 0
    (.ok [⟨3, []⟩, ⟨7, []⟩, ⟨9, []⟩]) =
    ([some 9], [("AAPL", ⟨7, []⟩), ("AAPL", ⟨9, []⟩)], []) := by decide

/-! ### Chain (sortedness) helper lemmas -/

theorem chainBy_tail {le : α → α → Bool} {a : α} {l : List α}
    (h : chainBy le (a :: l) = true) : chainBy le l = true := by
  cases l with
  | nil => rfl
  | cons b t =>
    simp only [chainBy, Bool.and_eq_true] at h
    exact h.2

theorem chainBy_drop {le : α → α → Bool} :
    ∀ (n : Nat) {l : List α}, chainBy le l = true →
      chainBy le (l.drop n) = true
  | 0, _, h => h
  | _ + 1, [], h => h
  | n + 1, _ :: _, h => by
    simpa using chainBy_drop n (chainBy_tail h)

theorem chainBy_head_le (le : α → α → Bool)
    (htrans : ∀ a b c, le a b = true → le b c = true → le a c = true) :
    ∀ {a : α} {l : List α}, chainBy le (a :: l) = true →
      ∀ x ∈ l, le a x = true := by
  intro a l
  induction l generalizing a with
  | nil => intro _ x hx; cases hx
  | cons b t ih =>
    intro h x hx
    simp only [chainBy, Bool.and_eq_true] at h
    rcases List.mem_cons.1 hx with rfl | hxt
    · exact h.1
    · exact htrans _ _ _ h.1 (ih h.2 x hxt)

/-! ### Rolling-buffer lemmas (`Daily_Aggregator` steady-state mutation) -/

theorem rollAppend_length {buf : List DRecord} (h : buf ≠ []) (r : DRecord) :
    (rollAppend buf r).length = buf.length := by
  have : 0 < buf.length := List.length_pos.2 h
  simp [rollAppend]
  omega

theorem rollAppend_getLast (buf : List DRecord) (r : DRecord) :
    (rollAppend buf r).getLast? = some r := by
  simp [rollAppend]

theorem rollAppend_shift {buf : List DRecord} (r : DRecord) {i : Nat}
    (h : i + 1 < buf.length) :
    (rollAppend buf r)[i]? = buf[i + 1]? := by
  have h1 : i < (buf.drop 1).length := by simp; omega
  rw [rollAppend, List.getElem?_append, if_pos h1, List.getElem?_drop]
  congr 1
  omega

theorem foldl_rollAppend (inputs : List DRecord) :
    ∀ (buf : List DRecord), buf ≠ [] →
      List.foldl rollAppend buf inputs = (buf ++ inputs).drop inputs.length := by
  induction inputs with
  | nil => intro buf _; simp
  | cons r rs ih =>
    intro buf h
    have hne : rollAppend buf r ≠ [] := by simp [rollAppend]
    have step : List.foldl rollAppend buf (r :: rs) =
        List.foldl rollAppend (rollAppend buf r) rs := rfl
    rw [step, ih _ hne]
    cases buf with
    | nil => exact absurd rfl h
    | cons b bs =>
      show ((bs ++ [r]) ++ rs).drop rs.length = _
      simp [List.append_assoc, List.drop_succ_cons]

/-! ### First-new-index lemmas (`np.argmax` on the boolean mask) -/

theorem firstTrueIdx_eq_none {p : α → Bool} :
    ∀ {l : List α}, (∀ x ∈ l, p x = false) → firstTrueIdx p l = none := by
  intro l
  induction l with
  | nil => intro _; rfl
  | cons a t ih =>
    intro h
    have ha : p a = false := h a (List.mem_cons_self a t)
    simp [firstTrueIdx, ha, ih fun x hx => h x (List.mem_cons_of_mem a hx)]

theorem firstTrueIdx_isSome {p : α → Bool} :
    ∀ {l : List α}, (∃ x ∈ l, p x = true) →
      ∃ i, firstTrueIdx p l = some i := by
  intro l
  induction l with
  | nil => rintro ⟨x, hx, _⟩; cases hx
  | cons a t ih =>
    rintro ⟨x, hx, hpx⟩
    by_cases ha : p a = true
    · exact ⟨0, by simp [firstTrueIdx, ha]⟩
    · rcases List.mem_cons.1 hx with rfl | hxt
      · exact absurd hpx ha
      · obtain ⟨j, hj⟩ := ih ⟨x, hxt, hpx⟩
        exact ⟨j + 1, by simp [firstTrueIdx, ha, hj]⟩

theorem firstTrueIdx_lt_length {p : α → Bool} :
    ∀ {l : List α} {i : Nat}, firstTrueIdx p l = some i → i < l.length := by
  intro l
  induction l with
  | nil => intro i h; cases h
  | cons a t ih =>
    intro i h
    simp only [firstTrueIdx] at h
    by_cases ha : p a = true
    · rw [if_pos ha] at h
      injection h with h0
      subst h0
      simp
    · rw [if_neg ha] at h
      rcases Option.map_eq_some'.1 h with ⟨j, hj, rfl⟩
      have := ih hj
      simp only [List.length_cons]
      omega

/-- On a chronologically sorted frame, dropping everything before the first
record newer than `pv` keeps exactly the records newer than `pv`. -/
theorem tsChain_drop_eq_filter {pv : Nat} :
    ∀ {l : List SRecord} {i : Nat}, tsChain l = true →
      firstTrueIdx (fun x => decide (pv < x.ts)) l = some i →
      l.drop i = l.filter (fun x => decide (pv < x.ts)) := by
  intro l
  induction l with
  | nil => intro i _ h; cases h
  | cons a t ih =>
    intro i hchain h
    simp only [firstTrueIdx] at h
    by_cases ha : decide (pv < a.ts) = true
    · rw [if_pos ha] at h
      injection h with h0
      subst h0
      have hall : ∀ x ∈ t, a.ts ≤ x.ts := by
        intro x hx
        have := chainBy_head_le
          (fun a b : SRecord => decide (a.ts ≤ b.ts))
          (fun a b c h1 h2 => by
            simp only [decide_eq_true_eq] at h1 h2 ⊢
            omega) hchain x hx
        simpa using this
      have hfilter : t.filter (fun x => decide (pv < x.ts)) = t := by
        rw [List.filter_eq_self]
        intro x hx
        have := hall x hx
        simp only [decide_eq_true_eq] at ha ⊢
        omega
      simp [List.filter_cons, ha, hfilter]
    · rw [if_neg ha] at h
      rcases Option.map_eq_some'.1 h with ⟨j, hj, rfl⟩
      have hne : (a :: t).filter (fun x => decide (pv < x.ts)) =
          t.filter (fun x => decide (pv < x.ts)) := by
        simp [List.filter_cons, Bool.of_not_eq_true ha]
      rw [List.drop_succ_cons, hne, ih (chainBy_tail hchain) hj]

/-! ### Scraper update-loop lemmas -/

theorem updateOneTicker_fst_length (strs : List String)
    (prevs : List (Option Nat)) (ii : Nat)
    (fetch : Except String (List SRecord)) :
    (updateOneTicker strs prevs ii fetch).1.length = prevs.length := by
  rcases hs : strs[ii]? with _ | s
  · simp [updateOneTicker, hs]
  rcases hp : prevs[ii]? with _ | pu
  · simp [updateOneTicker, hs, hp]
  rcases fetch with e | data
  · simp [updateOneTicker, hs, hp]
  rcases data with _ | ⟨r, rs⟩
  · simp [updateOneTicker, hs, hp]
  rcases pu with _ | p
  · simp [updateOneTicker, hs, hp]
  rcases hidx : firstTrueIdx (fun x => decide (p < x.ts)) (r :: rs) with _ | idx <;>
    simp [updateOneTicker, hs, hp, hidx]

theorem updateOneTicker_error (strs : List String)
    (prevs : List (Option Nat)) (ii : Nat) (e : String)
    (hs : strs[ii]?.isSome = true) (hp : prevs[ii]?.isSome = true) :
    updateOneTicker strs prevs ii (.error e) = (prevs, [], [e]) := by
  rcases hs1 : strs[ii]? with _ | s
  · rw [hs1] at hs; cases hs
  · rcases hp1 : prevs[ii]? with _ | pu
    · rw [hp1] at hp; cases hp
    · simp [updateOneTicker, hs1, hp1]

theorem updateOneTicker_error_noop (strs : List String)
    (prevs : List (Option Nat)) (ii : Nat) (e : String) :
    (updateOneTicker strs prevs ii (.error e)).1 = prevs ∧
      (updateOneTicker strs prevs ii (.error e)).2.1 = [] := by
  unfold updateOneTicker
  repeat' split
  all_goals simp_all

theorem updateOneTicker_ok_nil_noop (strs : List String)
    (prevs : List (Option Nat)) (ii : Nat) :
    (updateOneTicker strs prevs ii (.ok [])).1 = prevs ∧
      (updateOneTicker strs prevs ii (.ok [])).2.1 = [] := by
  unfold updateOneTicker
  repeat' split
  all_goals simp_all

/-- Replacing one iteration's provider outcome by another with the same
effect on state and messages leaves the whole loop's state and messages
unchanged (they may differ in what got logged). -/
theorem updateTickersGo_agree {strs : List String}
    {fA fB : List (Except String (List SRecord))}
    (hstep : ∀ ii prevs,
      (updateOneTicker strs prevs ii (fA.getD ii (.error "fetch missing"))).1 =
        (updateOneTicker strs prevs ii (fB.getD ii (.error "fetch missing"))).1 ∧
      (updateOneTicker strs prevs ii (fA.getD ii (.error "fetch missing"))).2.1 =
        (updateOneTicker strs prevs ii (fB.getD ii (.error "fetch missing"))).2.1) :
    ∀ (L : List Nat) accA accB, accA.1 = accB.1 → accA.2.1 = accB.2.1 →
      (updateTickersGo strs fA L accA).1 = (updateTickersGo strs fB L accB).1 ∧
        (updateTickersGo strs fA L accA).2.1 =
          (updateTickersGo strs fB L accB).2.1 := by
  intro L
  induction L with
  | nil => intro accA accB h1 h2; exact ⟨h1, h2⟩
  | cons ii rest ih =>
    rintro ⟨pA, mA, lA⟩ ⟨pB, mB, lB⟩ h1 h2
    simp only at h1 h2
    subst h1
    subst h2
    have hs := hstep ii pA
    simp only [updateTickersGo]
    exact ih _ _ hs.1 (by simp only; rw [hs.2])

theorem updateTickersGo_logs_mono (strs : List String)
    (fetches : List (Except String (List SRecord))) :
    ∀ (L : List Nat) acc x, x ∈ acc.2.2 →
      x ∈ (updateTickersGo strs fetches L acc).2.2 := by
  intro L
  induction L with
  | nil => intro acc x hx; exact hx
  | cons ii rest ih =>
    intro acc x hx
    exact ih _ x (List.mem_append_left _ hx)

theorem updateTickersGo_fst_length (strs : List String)
    (fetches : List (Except String (List SRecord))) :
    ∀ (L : List Nat) acc,
      (updateTickersGo strs fetches L acc).1.length = acc.1.length := by
  intro L
  induction L with
  | nil => intro acc; rfl
  | cons ii rest ih =>
    intro acc
    rw [updateTickersGo, ih]
    exact updateOneTicker_fst_length ..

theorem updateTickersGo_error_logged {strs : List String}
    {fetches : List (Except String (List SRecord))} {iErr : Nat} {e : String}
    (hf : fetches[iErr]? = some (.error e)) (hs : iErr < strs.length) :
    ∀ (L : List Nat) acc, iErr ∈ L → acc.1.length = strs.length →
      e ∈ (updateTickersGo strs fetches L acc).2.2 := by
  intro L
  induction L with
  | nil => intro acc h; cases h
  | cons ii rest ih =>
    intro acc hmem hlen
    by_cases hii : ii = iErr
    · subst hii
      have hget : fetches.getD ii (.error "fetch missing") = .error e := by
        rw [List.getD_eq_getElem?_getD, hf]
        rfl
      have hstep : updateOneTicker strs acc.1 ii (.error e) =
          (acc.1, [], [e]) := by
        apply updateOneTicker_error
        · rw [List.getElem?_eq_getElem hs]
          rfl
        · rw [List.getElem?_eq_getElem (show ii < acc.1.length by omega)]
          rfl
      rw [updateTickersGo, hget, hstep]
      apply updateTickersGo_logs_mono
      simp
    · rcases List.mem_cons.1 hmem with h | h
      · exact absurd h.symm hii
      · apply ih _ h
        rw [updateOneTicker_fst_length]
        exact hlen

/-! ### Market-hours gating lemmas (`Scraper._pull_data`) -/

theorem pullSeq_all_closed_flag_set {ts : List PollInstant}
    (h : ∀ t ∈ ts, marketWindowOpen t = false) :
    pullSeq true ts = (List.replicate ts.length false, true) := by
  induction ts with
  | nil => rfl
  | cons t rest ih =>
    have ht : marketWindowOpen t = false := h t (List.mem_cons_self t rest)
    have hstep : pullDataMarketGate t true = (false, true) := by
      simp [pullDataMarketGate, ht]
    rw [pullSeq, hstep, ih fun u hu => h u (List.mem_cons_of_mem t hu)]
    simp [List.replicate_succ]

theorem pullSeq_all_closed_flag_clear {t : PollInstant} {ts : List PollInstant}
    (ht : marketWindowOpen t = false)
    (h : ∀ u ∈ ts, marketWindowOpen u = false) :
    pullSeq false (t :: ts) =
      (true :: List.replicate ts.length false, true) := by
  have hstep : pullDataMarketGate t false = (true, true) := by
    simp [pullDataMarketGate, ht]
  rw [pullSeq, hstep, pullSeq_all_closed_flag_set h]

theorem pullSeq_all_open {ts : List PollInstant}
    (h : ∀ t ∈ ts, marketWindowOpen t = true) :
    ∀ flag, pullSeq flag ts =
      (List.replicate ts.length true, if ts.isEmpty then flag else false) := by
  induction ts with
  | nil => intro flag; rfl
  | cons t rest ih =>
    intro flag
    have ht : marketWindowOpen t = true := h t (List.mem_cons_self t rest)
    have hstep : pullDataMarketGate t flag = (true, false) := by
      simp [pullDataMarketGate, ht]
    rw [pullSeq, hstep, ih fun u hu => h u (List.mem_cons_of_mem t hu)]
    cases rest <;> simp [List.replicate_succ]

theorem pullSeq_append (flag : Bool) (a b : List PollInstant) :
    pullSeq flag (a ++ b) =
      ((pullSeq flag a).1 ++ (pullSeq (pullSeq flag a).2 b).1,
        (pullSeq (pullSeq flag a).2 b).2) := by
  induction a generalizing flag with
  | nil => simp [pullSeq]
  | cons t rest ih =>
    simp only [List.cons_append, pullSeq, List.append_eq, ih]

/-! ### Scheduler catch-up lemmas (`Scraper.run`) -/

theorem incrementSecs_pos (tf : Timeframe) : 0 < incrementSecs tf := by
  cases tf <;> decide

theorem catchUp_spec (tf : Timeframe) (now : Nat) :
    ∀ (fuel next : Nat), now + 1 - next ≤ fuel →
      ∃ k, catchUp tf now next = next + k * incrementSecs tf ∧
        now < catchUp tf now next ∧
        ∀ j < k, next + j * incrementSecs tf ≤ now := by
  intro fuel
  induction fuel with
  | zero =>
    intro next h
    have hgt : now < next := by omega
    refine ⟨0, ?_, ?_, ?_⟩
    · rw [catchUp, if_neg (by omega)]
      omega
    · rw [catchUp, if_neg (by omega)]
      omega
    · intro j hj; omega
  | succ f ih =>
    intro next h
    by_cases hle : next ≤ now
    · have hstep : catchUp tf now next =
          catchUp tf now (next + incrementSecs tf) := by
        rw [catchUp, if_pos hle]
      have hpos := incrementSecs_pos tf
      obtain ⟨k, h1, h2, h3⟩ := ih (next + incrementSecs tf) (by omega)
      refine ⟨k + 1, ?_, ?_, ?_⟩
      · rw [hstep, h1]
        ring
      · rw [hstep]
        exact h2
      · intro j hj
        cases j with
        | zero => simpa using hle
        | succ j2 =>
          have := h3 j2 (by omega)
          have harith : next + (j2 + 1) * incrementSecs tf =
              next + incrementSecs tf + j2 * incrementSecs tf := by ring
          omega
    · refine ⟨0, ?_, ?_, ?_⟩
      · rw [catchUp, if_neg hle]
        omega
      · rw [catchUp, if_neg hle]
        omega
      · intro j hj; omega

theorem getLast?_drop_of_lt :
    ∀ {l : List α} {i : Nat}, i < l.length →
      (l.drop i).getLast? = l.getLast? := by
  intro l
  induction l with
  | nil => intro i h; simp at h
  | cons a t ih =>
    intro i h
    cases i with
    | zero => rfl
    | succ j =>
      have hj : j < t.length := by simpa using h
      rw [List.drop_succ_cons, ih hj]
      cases t with
      | nil => simp at hj
      | cons b t2 => rfl

theorem tsChain_le_last :
    ∀ {l : List SRecord} {lr : SRecord}, tsChain l = true →
      l.getLast? = some lr → ∀ x ∈ l, x.ts ≤ lr.ts := by
  intro l
  induction l with
  | nil => intro lr _ h; cases h
  | cons a t ih =>
    intro lr hchain hlast x hx
    cases t with
    | nil =>
      simp at hlast
      rcases List.mem_singleton.1 hx with rfl
      simp [hlast]
    | cons b t2 =>
      have hlast2 : (b :: t2).getLast? = some lr := by
        rwa [List.getLast?_cons_cons] at hlast
      have hab : a.ts ≤ b.ts := by
        have := hchain
        simp only [tsChain, chainBy, Bool.and_eq_true, decide_eq_true_eq]
          at this
        exact this.1
      rcases List.mem_cons.1 hx with rfl | hxt
      · have hb : b.ts ≤ lr.ts :=
          ih (chainBy_tail hchain) hlast2 b (List.mem_cons_self b t2)
        omega
      · exact ih (chainBy_tail hchain) hlast2 x hxt

/-! ## Claim theorems -/

/-- C3 (counterexample): it is false that after any sequence of at least W
`roll_append` calls the buffer is always in non-decreasing chronological
order — `_update_ticker` only checks that the fetched date *differs* from
the newest buffered date, so a roll sequence ending in an older date leaves
the buffer out of order (while still holding exactly W entries). -/
theorem rollAppend_order_violation :
    ROLLING_BUF_DAYS ≤ demoStaleInputs.length ∧
    (List.foldl rollAppend demoBuf demoStaleInputs).length = ROLLING_BUF_DAYS ∧
    dateChain (List.foldl rollAppend demoBuf demoStaleInputs) = false := by
  decide

/-- C3 (amended): `roll_append` evicts index 0, shifts every remaining entry
one position toward index 0 and writes the record at the last index, and —
provided the appended records themselves arrive in non-decreasing
chronological order — after any sequence of at least W `roll_append` calls
the buffer holds exactly W entries in non-decreasing chronological order. -/
theorem rollAppend_invariant_amended
    (buf : List DRecord) (r : DRecord) (inputs : List DRecord)
    (hbuf : buf.length = ROLLING_BUF_DAYS)
    (hchain : dateChain inputs = true)
    (hlen : ROLLING_BUF_DAYS ≤ inputs.length) :
    (rollAppend buf r).getLast? = some r ∧
    (∀ i, i + 1 < buf.length → (rollAppend buf r)[i]? = buf[i + 1]?) ∧
    (rollAppend buf r).length = buf.length ∧
    (List.foldl rollAppend buf inputs).length = ROLLING_BUF_DAYS ∧
    dateChain (List.foldl rollAppend buf inputs) = true := by
  have hne : buf ≠ [] := by
    intro h
    rw [h] at hbuf
    simp [ROLLING_BUF_DAYS] at hbuf
  have hfold : List.foldl rollAppend buf inputs =
      (buf ++ inputs).drop inputs.length := foldl_rollAppend inputs buf hne
  have hsplit : (buf ++ inputs).drop inputs.length =
      inputs.drop (inputs.length - ROLLING_BUF_DAYS) := by
    have h1 : inputs.length = buf.length + (inputs.length - ROLLING_BUF_DAYS) := by
      omega
    rw [h1, List.drop_append]
    congr 1
    omega
  refine ⟨rollAppend_getLast buf r, fun i hi => rollAppend_shift r hi,
    rollAppend_length hne r, ?_, ?_⟩
  · rw [hfold, hsplit, List.length_drop]
    omega
  · rw [hfold, hsplit]
    exact chainBy_drop _ hchain

/-- Witness for C3 (amended) at the concrete fixtures. -/
theorem rollAppend_invariant_amended_witness :
    (demoBuf.length = ROLLING_BUF_DAYS ∧ dateChain demoSortedInputs = true ∧
      ROLLING_BUF_DAYS ≤ demoSortedInputs.length) ∧
    ((rollAppend demoBuf zeroDRecord).getLast? = some zeroDRecord ∧
     (∀ i, i + 1 < demoBuf.length →
        (rollAppend demoBuf zeroDRecord)[i]? = demoBuf[i + 1]?) ∧
     (rollAppend demoBuf zeroDRecord).length = demoBuf.length ∧
     (List.foldl rollAppend demoBuf demoSortedInputs).length =
        ROLLING_BUF_DAYS ∧
     dateChain (List.foldl rollAppend demoBuf demoSortedInputs) = true) :=
  ⟨⟨by decide, by decide, by decide⟩,
   rollAppend_invariant_amended demoBuf zeroDRecord demoSortedInputs
     (by decide) (by decide) (by decide)⟩

/-- C1 (counterexample): a steady-state daily update whose fetch contains no
date greater than the newest buffered date (2024-01-29 against 2024-01-30)
nevertheless rolls the buffer and publishes, because `_update_ticker` treats
any *differing* date — even an older one — as new. -/
theorem daily_update_stale_date_publishes :
    dateLtb (demoBuf.getLastD zeroDRecord).date ⟨2024, 1, 29⟩ = false ∧
    dailyUpdateTicker ⟨true, demoBuf⟩ [⟨⟨2024, 1, 29⟩, []⟩] =
      .ok ⟨⟨true, rollAppend demoBuf ⟨⟨2024, 1, 29⟩, []⟩⟩,
        some (rollAppend demoBuf ⟨⟨2024, 1, 29⟩, []⟩)⟩ ∧
    rollAppend demoBuf ⟨⟨2024, 1, 29⟩, []⟩ ≠ demoBuf :=
  ⟨by decide, rfl, by decide⟩

/-- C1 (amended): on a steady-state instrument the intraday `Scraper` update
is a strict no-op (state unchanged, nothing published, nothing logged)
whenever no fetched timestamp exceeds `prev_update`; the daily variant is a
no-op exactly when the fetched record's calendar date equals the buffer's
newest date — a differing older date also counts as new. -/
theorem steady_state_noop_amended
    (strs : List String) (prevs : List (Option Nat)) (ii : Nat) (s : String)
    (p : Nat) (data : List SRecord)
    (hs : strs[ii]? = some s) (hp : prevs[ii]? = some (some p))
    (hles : ∀ r ∈ data, r.ts ≤ p)
    (st : DailyTickerState) (r0 : DRecord) (rest0 : List DRecord)
    (hinit : st.initialized = true)
    (hdate : r0.date = (st.buf.getLastD zeroDRecord).date) :
    updateOneTicker strs prevs ii (.ok data) = (prevs, [], []) ∧
    dailyUpdateTicker st (r0 :: rest0) = .ok ⟨st, none⟩ := by
  constructor
  · rcases data with _ | ⟨r, rs⟩
    · simp [updateOneTicker, hs, hp]
    · have hidx : firstTrueIdx (fun x => decide (p < x.ts)) (r :: rs) = none := by
        apply firstTrueIdx_eq_none
        intro x hx
        have := hles x hx
        simp only [decide_eq_false_iff_not]
        omega
      simp [updateOneTicker, hs, hp, hidx]
  · simp [dailyUpdateTicker, hinit, hdate]

/-- Witness for C1 (amended) at concrete inputs. -/
theorem steady_state_noop_amended_witness :
    ((["AAPL"] : List String)[0]? = some "AAPL" ∧
      ([some 10] : List (Option Nat))[0]? = some (some 10) ∧
      (∀ r ∈ ([⟨8, []⟩, ⟨10, []⟩] : List SRecord), r.ts ≤ 10) ∧
      (DailyTickerState.mk true demoBuf).initialized = true ∧
      (⟨⟨2024, 1, 30⟩, []⟩ : DRecord).date =
        ((DailyTickerState.mk true demoBuf).buf.getLastD zeroDRecord).date) ∧
    (updateOneTicker ["AAPL"] [some 10] 0 (.ok [⟨8, []⟩, ⟨10, []⟩]) =
        ([some 10], [], []) ∧
      dailyUpdateTicker ⟨true, demoBuf⟩ [⟨⟨2024, 1, 30⟩, []⟩] =
        .ok ⟨⟨true, demoBuf⟩, none⟩) :=
  ⟨⟨rfl, rfl, by decide, rfl, by decide⟩,
   steady_state_noop_amended ["AAPL"] [some 10] 0 "AAPL" 10
     [⟨8, []⟩, ⟨10, []⟩] rfl rfl (by decide) ⟨true, demoBuf⟩
     ⟨⟨2024, 1, 30⟩, []⟩ [] rfl (by decide)⟩

/-- C2 (counterexample): an uninitialized `Scraper` instrument does not
return W records — its first update publishes exactly one message, the
single most recent fetched record. -/
theorem scraper_bootstrap_single_record :
    (updateOneTicker ["AAPL"] [none] 0
        (.ok [⟨100, [1]⟩, ⟨200, [2]⟩])).2.1 = [("AAPL", ⟨200, [2]⟩)] ∧
    ((updateOneTicker ["AAPL"] [none] 0
        (.ok [⟨100, [1]⟩, ⟨200, [2]⟩])).2.1).length ≠ ROLLING_BUF_DAYS := by
  decide

/-- C2 (amended): in the daily variant an uninitialized instrument's update
bootstraps from a fetch of at least W rows, keeps exactly the most recent W,
marks the instrument initialized, returns all W rows as new, and ends with
the newest buffered row equal to the newest fetched row; the `Scraper`'s
first-time update instead publishes only the single most recent fetched
record and sets `prev_update` to its timestamp. -/
theorem bootstrap_amended
    (fetch : List DRecord) (hlen : ROLLING_BUF_DAYS ≤ fetch.length)
    (strs : List String) (prevs : List (Option Nat)) (ii : Nat) (s : String)
    (r : SRecord) (rs : List SRecord)
    (hs : strs[ii]? = some s) (hp : prevs[ii]? = some none) :
    (dailyUpdateTicker initDailyState fetch =
        .ok ⟨⟨true, fetch.drop (fetch.length - ROLLING_BUF_DAYS)⟩,
          some (fetch.drop (fetch.length - ROLLING_BUF_DAYS))⟩ ∧
      (fetch.drop (fetch.length - ROLLING_BUF_DAYS)).length =
        ROLLING_BUF_DAYS ∧
      (fetch.drop (fetch.length - ROLLING_BUF_DAYS)).getLast? =
        fetch.getLast?) ∧
    updateOneTicker strs prevs ii (.ok (r :: rs)) =
      (prevs.set ii (some (rs.getLastD r).ts), [(s, rs.getLastD r)], []) := by
  refine ⟨⟨?_, ?_, ?_⟩, ?_⟩
  · simp [dailyUpdateTicker, initDailyState, hlen]
  · rw [List.length_drop]
    omega
  · refine getLast?_drop_of_lt ?_
    have hR : 0 < ROLLING_BUF_DAYS := by decide
    omega
  · simp [updateOneTicker, hs, hp]

/-- Witness for C2 (amended) at concrete inputs. -/
theorem bootstrap_amended_witness :
    (ROLLING_BUF_DAYS ≤ fetch40.length ∧
      (["AAPL"] : List String)[0]? = some "AAPL" ∧
      ([none] : List (Option Nat))[0]? = some none) ∧
    ((dailyUpdateTicker initDailyState fetch40 =
        .ok ⟨⟨true, fetch40.drop (fetch40.length - ROLLING_BUF_DAYS)⟩,
          some (fetch40.drop (fetch40.length - ROLLING_BUF_DAYS))⟩ ∧
      (fetch40.drop (fetch40.length - ROLLING_BUF_DAYS)).length =
        ROLLING_BUF_DAYS ∧
      (fetch40.drop (fetch40.length - ROLLING_BUF_DAYS)).getLast? =
        fetch40.getLast?) ∧
    updateOneTicker ["AAPL"] [none] 0 (.ok [⟨7, [1]⟩]) =
      ([some 7], [("AAPL", ⟨7, [1]⟩)], [])) :=
  ⟨⟨by decide, rfl, rfl⟩,
   bootstrap_amended fetch40 (by decide) ["AAPL"] [none] 0 "AAPL"
     ⟨7, [1]⟩ [] rfl rfl⟩

/-- C8 (counterexample): scenario A — daily bootstrap of symbol "XYZ" from a
40-row fetch keeps 30 rows, but the one `_publish` call sends exactly ONE
zmq message carrying the whole 30-row batch, not 30 messages. -/
theorem daily_bootstrap_single_message :
    dailyUpdateTicker initDailyState fetch40 =
      .ok ⟨⟨true, fetch40.drop 10⟩, some (fetch40.drop 10)⟩ ∧
    (fetch40.drop 10).length = 30 ∧
    (dailyPublish "XYZ" (fetch40.drop 10)).length = 1 ∧
    (dailyPublish "XYZ" (fetch40.drop 10)).length ≠ 30 :=
  ⟨rfl, by decide, rfl, by decide⟩

/-- C8 (amended): the `Scraper`'s publish emits one message per record with
the symbol as key, preserving the given (chronological) order — a batch of
records maps one-to-one onto messages; the daily aggregator's publish
instead emits a single message per update carrying the symbol and the whole
batch. -/
theorem publish_amended (symbol : String) (r : SRecord) (rs : List SRecord)
    (buf : List DRecord) :
    scraperPublish symbol (.single r) = [(symbol, r)] ∧
    scraperPublish symbol (.batch rs) = rs.map (fun x => (symbol, x)) ∧
    (scraperPublish symbol (.batch rs)).length = rs.length ∧
    (scraperPublish symbol (.batch rs)).map Prod.snd = rs ∧
    dailyPublish symbol buf = [(symbol, buf)] ∧
    (dailyPublish symbol buf).length = 1 := by
  refine ⟨rfl, rfl, by simp [scraperPublish], ?_, rfl, rfl⟩
  simp [scraperPublish]

/-- C9 (counterexample): an empty effective symbol set is not a fatal
configuration error — `get_ticker_list` happily returns the empty list and
`Scraper.__init__` succeeds on it. -/
theorem empty_ticker_list_accepted :
    get_ticker_list [] = [] ∧ (scraperInit "1d" [] []).isOk = true := by
  decide

/-- C9 (amended): an invalid timeframe value raises `ValueError` during
construction, so the service is never built and the scheduling loop never
starts; an empty effective symbol set, however, is accepted and construction
succeeds. -/
theorem config_error_amended (tf : String) (mt dt : List String)
    (hbad : valid_options.contains tf = false) :
    scraperInit tf mt dt = .error "Invalid timeframe argument" ∧
    (scraperInit "1d" [] []).isOk = true := by
  constructor
  · have hmem : tf ∉ valid_options := by simpa using hbad
    simp [scraperInit, hmem]
  · decide

/-- Witness for C9 (amended) at a concrete invalid timeframe. -/
theorem config_error_amended_witness :
    valid_options.contains "2h" = false ∧
    (scraperInit "2h" ["A"] [] = .error "Invalid timeframe argument" ∧
      (scraperInit "1d" [] []).isOk = true) :=
  ⟨by decide, config_error_amended "2h" ["A"] [] (by decide)⟩

theorem getLast?_cons_eq_getLastD (d : α) (ds : List α) :
    (d :: ds).getLast? = some (ds.getLastD d) := by
  induction ds generalizing d with
  | nil => rfl
  | cons b t ih =>
    rw [List.getLast?_cons_cons, ih b, List.getLastD_cons]

/-- C4 (confirmed): a steady-state intraday update on a chronologically
sorted fetch containing at least one record newer than `prev_update`
publishes exactly the fetched records with timestamp strictly greater than
`prev_update`, keyed by the symbol, in chronological order, and sets
`prev_update` to the newest new record's timestamp. -/
theorem intraday_steady_new_records
    (strs : List String) (prevs : List (Option Nat)) (ii : Nat) (s : String)
    (p : Nat) (data : List SRecord)
    (hs : strs[ii]? = some s) (hp : prevs[ii]? = some (some p))
    (hchain : tsChain data = true)
    (hnew : ∃ r ∈ data, p < r.ts) :
    ∃ lr, data.getLast? = some lr ∧ p < lr.ts ∧
      updateOneTicker strs prevs ii (.ok data) =
        (prevs.set ii (some lr.ts),
          (data.filter (fun x => decide (p < x.ts))).map (fun x => (s, x)),
          []) ∧
      (data.filter (fun x => decide (p < x.ts))).getLast? = some lr ∧
      tsChain (data.filter (fun x => decide (p < x.ts))) = true := by
  obtain ⟨rn, hrn, hrnts⟩ := hnew
  rcases data with _ | ⟨d, ds⟩
  · cases hrn
  have hex : ∃ x ∈ d :: ds, (fun y : SRecord => decide (p < y.ts)) x = true :=
    ⟨rn, hrn, by simpa using hrnts⟩
  obtain ⟨idx, hidx⟩ := firstTrueIdx_isSome hex
  have hlt := firstTrueIdx_lt_length hidx
  have hdrop := tsChain_drop_eq_filter hchain hidx
  have hlast : (d :: ds).getLast? = some (ds.getLastD d) :=
    getLast?_cons_eq_getLastD d ds
  refine ⟨ds.getLastD d, hlast, ?_, ?_, ?_, ?_⟩
  · have := tsChain_le_last hchain hlast rn hrn
    omega
  · simp only [updateOneTicker, hs, hp, hidx]
    rw [← hdrop]
  · rw [← hdrop, getLast?_drop_of_lt hlt, hlast]
  · rw [← hdrop]
    exact chainBy_drop idx hchain

/-- Witness for C4 at concrete inputs. -/
theorem intraday_steady_new_records_witness :
    ((["AAPL"] : List String)[0]? = some "AAPL" ∧
      ([some 5] : List (Option Nat))[0]? = some (some 5) ∧
      tsChain [⟨3, []⟩, ⟨7, []⟩, ⟨9, []⟩] = true ∧
      (∃ r ∈ ([⟨3, []⟩, ⟨7, []⟩, ⟨9, []⟩] : List SRecord), 5 < r.ts)) ∧
    (∃ lr, ([⟨3, []⟩, ⟨7, []⟩, ⟨9, []⟩] : List SRecord).getLast? = some lr ∧
      5 < lr.ts ∧
      updateOneTicker ["AAPL"] [some 5] 0 (.ok [⟨3, []⟩, ⟨7, []⟩, ⟨9, []⟩]) =
        (([some 5] : List (Option Nat)).set 0 (some lr.ts),
          (([⟨3, []⟩, ⟨7, []⟩, ⟨9, []⟩] : List SRecord).filter
              (fun x => decide (5 < x.ts))).map (fun x => ("AAPL", x)),
          []) ∧
      (([⟨3, []⟩, ⟨7, []⟩, ⟨9, []⟩] : List SRecord).filter
          (fun x => decide (5 < x.ts))).getLast? = some lr ∧
      tsChain (([⟨3, []⟩, ⟨7, []⟩, ⟨9, []⟩] : List SRecord).filter
          (fun x => decide (5 < x.ts))) = true) :=
  ⟨⟨rfl, rfl, by decide, by decide⟩,
   intraday_steady_new_records ["AAPL"] [some 5] 0 "AAPL" 5
     [⟨3, []⟩, ⟨7, []⟩, ⟨9, []⟩] rfl rfl (by decide) (by decide)⟩

/-- C5 (counterexample): a poll on a Saturday (weekday 5) with the one-shot
flag at its `__init__` value `False` — e.g. a process started on the
weekend — performs a full market-ticker update cycle, so market-hours
instruments do not receive zero update cycles on every non-trading
weekday. -/
theorem weekend_market_pull :
    marketWindowOpen ⟨5, 12 * 3600⟩ = false ∧
    (pullSeq false [⟨5, 12 * 3600⟩]).1 = [true] := by decide

/-- C5 (amended): if the one-shot flag is already set when a stretch of
out-of-window polls begins (as it is after the post-close pull of a normal
trading day), market instruments are pulled zero times during that stretch
and the flag stays set; on a trading day with in-hours polls followed by
post-close polls, every in-hours poll pulls (and clears the flag) and then
exactly the first post-close poll pulls once, the rest being suppressed
until an in-hours poll clears the flag again. -/
theorem market_gate_amended
    (ts : List PollInstant) (hclosed : ∀ t ∈ ts, marketWindowOpen t = false)
    (pre post : List PollInstant) (t : PollInstant)
    (hpre : ∀ u ∈ pre, marketWindowOpen u = true)
    (hpost : ∀ u ∈ post, marketWindowOpen u = false)
    (ht : marketWindowOpen t = false)
    (hpre_ne : pre ≠ [])
    (flag0 : Bool) :
    pullSeq true ts = (List.replicate ts.length false, true) ∧
    (pullSeq flag0 (pre ++ t :: post)).1 =
      List.replicate pre.length true ++
        true :: List.replicate post.length false := by
  refine ⟨pullSeq_all_closed_flag_set hclosed, ?_⟩
  have hflag : (pullSeq flag0 pre).2 = false := by
    rw [pullSeq_all_open hpre flag0]
    cases pre with
    | nil => exact absurd rfl hpre_ne
    | cons a b => simp
  rw [pullSeq_append, hflag, pullSeq_all_closed_flag_clear ht hpost,
    pullSeq_all_open hpre flag0]

/-- Witness for C5 (amended): a weekend with the flag set, and a Monday with
one in-hours poll, the post-close poll, and one later evening poll. -/
theorem market_gate_amended_witness :
    ((∀ u ∈ ([⟨5, 43200⟩, ⟨6, 43200⟩] : List PollInstant),
        marketWindowOpen u = false) ∧
      (∀ u ∈ ([⟨0, 36000⟩] : List PollInstant), marketWindowOpen u = true) ∧
      (∀ u ∈ ([⟨0, 61200⟩] : List PollInstant), marketWindowOpen u = false) ∧
      marketWindowOpen ⟨0, 57690⟩ = false ∧
      ([⟨0, 36000⟩] : List PollInstant) ≠ []) ∧
    (pullSeq true [⟨5, 43200⟩, ⟨6, 43200⟩] =
        (List.replicate 2 false, true) ∧
      (pullSeq true ([⟨0, 36000⟩] ++ ⟨0, 57690⟩ :: [⟨0, 61200⟩])).1 =
        List.replicate 1 true ++ true :: List.replicate 1 false) :=
  ⟨⟨by decide, by decide, by decide, by decide, by decide⟩,
   market_gate_amended [⟨5, 43200⟩, ⟨6, 43200⟩] (by decide)
     [⟨0, 36000⟩] [⟨0, 61200⟩] ⟨0, 57690⟩ (by decide) (by decide)
     (by decide) (by decide) true⟩

/-- C6 (counterexample): at 10:00 (36000 s after midnight) on some day,
today's market close plus the 180 s grace (57780 s) is still in the future,
yet the `Daily_Aggregator` scheduler's first trigger is not it — the
aggregator always targets the NEXT day's close plus grace (144180 s),
skipping a still-upcoming close rather than advancing only when the
computed time is in the past. -/
theorem daily_agg_trigger_skips_today :
    (36000 : Nat) < 16 * 3600 + 180 ∧
    dailyAggFirstTrigger 36000 ≠ 16 * 3600 + 180 ∧
    dailyAggFirstTrigger 36000 = 86400 + 16 * 3600 + 180 := by decide

/-- C6 (amended): the `Scraper`'s scheduler behaves as claimed for every
cadence — the first trigger is the calendar anchor plus grace, advanced by
whole cadence increments exactly while not in the future (so it is strictly
in the future, lands on the anchor grid, and equals the anchor itself
whenever the anchor is still ahead, never "now"); the `Daily_Aggregator`'s
scheduler instead always targets the next day's close plus 180 s,
regardless of whether today's close is still ahead. -/
theorem first_trigger_amended (tf : Timeframe) (now : Nat) :
    (∃ k, scraperFirstTrigger tf now =
        anchorSecs tf + k * incrementSecs tf ∧
      now < scraperFirstTrigger tf now ∧
      ∀ j < k, anchorSecs tf + j * incrementSecs tf ≤ now) ∧
    (now < anchorSecs tf → scraperFirstTrigger tf now = anchorSecs tf) ∧
    (∀ m, dailyAggFirstTrigger m = 86400 + 16 * 3600 + 180) := by
  obtain ⟨k, h1, h2, h3⟩ :=
    catchUp_spec tf now (now + 1) (anchorSecs tf) (by omega)
  refine ⟨⟨k, h1, h2, h3⟩, ?_, fun m => rfl⟩
  intro hfut
  rw [scraperFirstTrigger, catchUp, if_neg (by omega)]

/-- Witness for C6 (amended): scenario C — a 5 m cadence, 10 minutes before
market open (09:20 = 33600 s): the first trigger is exactly the anchor
(09:35:30), not "now". -/
theorem first_trigger_amended_witness :
    (33600 : Nat) < anchorSecs Timeframe.m5 ∧
    scraperFirstTrigger Timeframe.m5 33600 = anchorSecs Timeframe.m5 :=
  ⟨by decide, (first_trigger_amended Timeframe.m5 33600).2.1 (by decide)⟩

/-- C7 (counterexample): in the daily variant a fetch error for the first
symbol aborts the whole cycle — the loop has no exception handler, so the
second symbol (whose own update would succeed) is never processed. -/
theorem daily_loop_error_aborts :
    dailyLoopThroughTickers
        [(initDailyState, .error "HTTPError"),
          (initDailyState, .ok (List.replicate 40 zeroDRecord))] =
      .error "HTTPError" ∧
    (dailyLoopThroughTickers
        [(initDailyState, .ok (List.replicate 40 zeroDRecord))]).isOk =
      true :=
  ⟨rfl, by decide⟩

/-- C7 (amended): in the intraday `Scraper` a fetch error for one symbol is
caught and logged and acts as a no-op for that cycle — the loop's final
state and published messages are exactly those of the same cycle with that
fetch replaced by an empty (no-op) result, and the error text appears in
the log; in the daily variant there is no per-symbol handler and the error
aborts the cycle for all remaining symbols. -/
theorem fetch_error_isolation_amended
    (strs : List String) (prevs : List (Option Nat))
    (fetches : List (Except String (List SRecord))) (iErr : Nat) (e : String)
    (hf : fetches[iErr]? = some (.error e)) (hs : iErr < strs.length)
    (hlen : prevs.length = strs.length)
    (st : DailyTickerState)
    (rest : List (DailyTickerState × Except String (List DRecord))) :
    (updateTickers strs prevs fetches).1 =
      (updateTickers strs prevs (fetches.set iErr (.ok []))).1 ∧
    (updateTickers strs prevs fetches).2.1 =
      (updateTickers strs prevs (fetches.set iErr (.ok []))).2.1 ∧
    e ∈ (updateTickers strs prevs fetches).2.2 ∧
    dailyLoopThroughTickers ((st, .error e) :: rest) = .error e := by
  have hlen2 : iErr < fetches.length := by
    by_contra hcon
    rw [List.getElem?_eq_none (by omega)] at hf
    cases hf
  have hstep : ∀ ii prevs',
      (updateOneTicker strs prevs' ii
          (fetches.getD ii (.error "fetch missing"))).1 =
        (updateOneTicker strs prevs' ii
          ((fetches.set iErr (.ok [])).getD ii (.error "fetch missing"))).1 ∧
      (updateOneTicker strs prevs' ii
          (fetches.getD ii (.error "fetch missing"))).2.1 =
        (updateOneTicker strs prevs' ii
          ((fetches.set iErr (.ok [])).getD ii (.error "fetch missing"))).2.1 := by
    intro ii prevs'
    by_cases hii : ii = iErr
    · subst hii
      have hA : fetches.getD ii (.error "fetch missing") = .error e := by
        rw [List.getD_eq_getElem?_getD, hf]
        rfl
      have hB : (fetches.set ii (.ok [])).getD ii (.error "fetch missing") =
          .ok [] := by
        rw [List.getD_eq_getElem?_getD,
          List.getElem?_set_eq_of_lt (Except.ok []) hlen2]
        rfl
      rw [hA, hB]
      constructor
      · rw [(updateOneTicker_error_noop strs prevs' ii e).1,
          (updateOneTicker_ok_nil_noop strs prevs' ii).1]
      · rw [(updateOneTicker_error_noop strs prevs' ii e).2,
          (updateOneTicker_ok_nil_noop strs prevs' ii).2]
    · have heq : (fetches.set iErr (.ok [])).getD ii (.error "fetch missing") =
          fetches.getD ii (.error "fetch missing") := by
        rw [List.getD_eq_getElem?_getD, List.getD_eq_getElem?_getD,
          List.getElem?_set_ne (fun h => hii h.symm)]
      rw [heq]
      exact ⟨rfl, rfl⟩
  have hagree := updateTickersGo_agree hstep (List.range strs.length)
    (prevs, [], []) (prevs, [], []) rfl rfl
  exact ⟨hagree.1, hagree.2,
    updateTickersGo_error_logged hf hs (List.range strs.length)
      (prevs, [], []) (List.mem_range.2 hs) hlen, rfl⟩

/-- Witness for C7 (amended) at a two-symbol cycle whose first fetch errors. -/
theorem fetch_error_isolation_amended_witness :
    (([.error "boom", .ok [⟨1, []⟩]] :
        List (Except String (List SRecord)))[0]? = some (.error "boom") ∧
      0 < (["A", "B"] : List String).length ∧
      ([none, none] : List (Option Nat)).length =
        (["A", "B"] : List String).length) ∧
    ((updateTickers ["A", "B"] [none, none]
          [.error "boom", .ok [⟨1, []⟩]]).1 =
        (updateTickers ["A", "B"] [none, none]
          (([.error "boom", .ok [⟨1, []⟩]] :
            List (Except String (List SRecord))).set 0 (.ok []))).1 ∧
      (updateTickers ["A", "B"] [none, none]
          [.error "boom", .ok [⟨1, []⟩]]).2.1 =
        (updateTickers ["A", "B"] [none, none]
          (([.error "boom", .ok [⟨1, []⟩]] :
            List (Except String (List SRecord))).set 0 (.ok []))).2.1 ∧
      "boom" ∈ (updateTickers ["A", "B"] [none, none]
          [.error "boom", .ok [⟨1, []⟩]]).2.2 ∧
      dailyLoopThroughTickers [(initDailyState, .error "boom")] =
        .error "boom") :=
  ⟨⟨rfl, by decide, by decide⟩,
   fetch_error_isolation_amended ["A", "B"] [none, none]
     [.error "boom", .ok [⟨1, []⟩]] 0 "boom" rfl (by decide) (by decide)
     initDailyState []⟩

/-- C10 (confirmed): `Scraper.__init__` allocates `daily_prev_update` with
one slot per MARKET ticker (line 135), and any update iteration whose index
is at or beyond the length of the `prev_updates` array raises an
out-of-bounds access that the per-symbol handler catches and logs, leaving
the state untouched and publishing nothing — so when there are more daily
tickers than market tickers, the daily tickers past the market count are
never updated or published. -/
theorem daily_prev_update_misallocation
    (tf : String) (mt dt : List String) (s : Scraper)
    (hok : scraperInit tf mt dt = .ok s)
    (strs : List String) (prevs : List (Option Nat)) (ii : Nat)
    (fetch : Except String (List SRecord))
    (hge : prevs.length ≤ ii) (hlt : ii < strs.length) :
    s.daily_prev_update.length = s.market_ticker_strs.length ∧
    updateOneTicker strs prevs ii fetch =
      (prevs, [], ["IndexError: list index out of range"]) := by
  constructor
  · simp only [scraperInit] at hok
    split at hok
    · simp only [Except.ok.injEq] at hok
      subst hok
      simp
    · cases hok
  · have hpnone : prevs[ii]? = none := List.getElem?_eq_none hge
    rcases hs2 : strs[ii]? with _ | s2
    · simp [List.getElem?_eq_getElem hlt] at hs2
    · simp [updateOneTicker, hs2, hpnone]

/-- Witness for C10: one market ticker, two daily tickers; the update
attempt for the daily ticker at index 1 is logged as an IndexError and is a
no-op. -/
theorem daily_prev_update_misallocation_witness :
    (scraperInit "1d" ["AAPL"] ["BTC-USD", "ETH-USD"] = .ok demoScraper ∧
      demoScraper.daily_prev_update.length ≤ 1 ∧
      1 < demoScraper.daily_ticker_strs.length) ∧
    (demoScraper.daily_prev_update.length =
        demoScraper.market_ticker_strs.length ∧
      updateOneTicker demoScraper.daily_ticker_strs
          demoScraper.daily_prev_update 1 (.ok []) =
        (demoScraper.daily_prev_update, [],
          ["IndexError: list index out of range"])) :=
  ⟨⟨rfl, by decide, by decide⟩,
   daily_prev_update_misallocation "1d" ["AAPL"] ["BTC-USD", "ETH-USD"]
     demoScraper rfl demoScraper.daily_ticker_strs
     demoScraper.daily_prev_update 1 (.ok []) (by decide) (by decide)⟩
